import Mathlib

/-!
Shallow embedding of the gts Go-to-Scar source converter (src/gts.go).

The converter walks a Go AST and emits text in an indentation-sensitive
target language.  We embed the AST node shapes the converter inspects and
the converter functions themselves, keeping the source's names.  The
mutable `ScarConverter` (indentation counter + output builder) becomes an
explicit state record threaded through the emission functions.
-/

namespace GTS

/-! ## Helpers modelling the Go `strings` package calls used by gts.go

All helpers are structural recursions over `List Char`, so concrete
instances evaluate inside the kernel. -/

/-- Models `strings.Repeat s n`: `n` concatenated copies of `s`. -/
def strRepeat (s : String) : Nat → String
  | 0 => ""
  | n + 1 => s ++ strRepeat s n

/-- The ASCII whitespace relevant to this development (the converter only
ever produces spaces and newlines around trimmed text). -/
def isGoSpace (c : Char) : Bool :=
  (c == ' ') || (c == '\t') || (c == '\n') || (c == '\r')

/-- Models `strings.TrimSpace`: drop leading and trailing whitespace. -/
def goTrimSpace (s : String) : String :=
  (((s.toList.dropWhile isGoSpace).reverse.dropWhile isGoSpace).reverse).asString

/-- Split a character list at every occurrence of `c`. -/
def splitCharList (c : Char) : List Char → List (List Char)
  | [] => [[]]
  | x :: xs =>
    match splitCharList c xs with
    | h :: t => if x == c then [] :: h :: t else (x :: h) :: t
    | [] => [[x]]

/-- Models `strings.Split s " "` (the only split the source performs):
split on every single space character. -/
def goSplitSpace (s : String) : List String :=
  (splitCharList ' ' s.toList).map List.asString

/-- Models `strings.Join l sep`. -/
def goJoin (sep : String) : List String → String
  | [] => ""
  | [x] => x
  | x :: y :: t => x ++ sep ++ goJoin sep (y :: t)

/-- Models `strings.HasPrefix s pre`. -/
def goHasPrefixB (s pre : String) : Bool :=
  pre.toList.isPrefixOf s.toList

/-- Models `strings.TrimPrefix s pre`: drop `pre` when it is a prefix,
otherwise return `s` unchanged. -/
def goTrimPrefixStr (s pre : String) : String :=
  if goHasPrefixB s pre then (s.toList.drop pre.toList.length).asString else s

/-! ## The AST fragment gts.go dispatches on

Go's `ast.Expr` is one open universe covering both type expressions and
value expressions; `convertType` and `convertExpr` both take `ast.Expr`.
We mirror this with a single inductive `Expr` holding every variant either
function matches. -/

inductive Expr : Type where
  /-- Models `*ast.Ident` -/
  | ident (name : String)
  /-- Models `*ast.BasicLit` (its `Value` field; `convertExpr` returns the value
  verbatim for every literal kind) -/
  | basicLit (value : String)
  /-- Models `*ast.BinaryExpr` with the operator's token text -/
  | binaryExpr (op : String) (x y : Expr)
  /-- Models `*ast.UnaryExpr` -/
  | unaryExpr (op : String) (x : Expr)
  /-- Models `*ast.CallExpr` -/
  | callExpr (fn : Expr) (args : List Expr)
  /-- Models `*ast.SelectorExpr` -/
  | selectorExpr (x : Expr) (sel : String)
  /-- Models `*ast.IndexExpr` -/
  | indexExpr (x index : Expr)
  /-- Models `*ast.CompositeLit` (`Type` may be nil) -/
  | compositeLit (typ : Option Expr) (elts : List Expr)
  /-- Models `*ast.TypeAssertExpr` -/
  | typeAssertExpr (x typ : Expr)
  /-- Models `*ast.ArrayType` -/
  | arrayType (elt : Expr)
  /-- Models `*ast.MapType` -/
  | mapType (key value : Expr)
  /-- Models `*ast.StarExpr` -/
  | starExpr (x : Expr)

mutual

/-- Embeds `convertType` (gts.go lines 46-83).  The nil-receiver check is
handled at call sites via `Option`. -/
def convertType : Expr → String
  | .ident name =>
    match name with
    | "int" => "int"
    | "int32" => "int"
    | "int64" => "i64"
    | "string" => "string"
    | "bool" => "bool"
    | "byte" => "char"
    | "float32" => "float"
    | "float64" => "float"
    | _ => name
  | .arrayType elt => "list[" ++ convertType elt ++ "]"
  | .mapType key value => "map[" ++ convertType key ++ ": " ++ convertType value ++ "]"
  | .starExpr x => "ref " ++ convertType x
  | .selectorExpr x sel => convertExpr (.selectorExpr x sel)
  | _ => "unknown"
termination_by e => 3 * sizeOf e + 1

/-- Embeds `convertExpr` (gts.go lines 86-137). -/
def convertExpr : Expr → String
  | .ident name => name
  | .basicLit value => value
  | .binaryExpr op x y =>
    -- the source's operator-rewrite switch maps each listed operator to
    -- itself, so the operator text passes through unchanged
    convertExpr x ++ " " ++ op ++ " " ++ convertExpr y
  | .unaryExpr op x => op ++ convertExpr x
  | .callExpr fn args => convertCallExpr fn args
  | .selectorExpr x sel => convertExpr x ++ "." ++ sel
  | .indexExpr x index => convertExpr x ++ "[" ++ convertExpr index ++ "]"
  | .compositeLit typ elts => convertCompositeLit typ elts
  | .typeAssertExpr x typ => "(" ++ convertType typ ++ ")" ++ convertExpr x
  | _ => "# unknown expression"
termination_by e => 3 * sizeOf e

/-- Map `convertExpr` over an argument list. -/
def convertExprList : List Expr → List String
  | [] => []
  | e :: es => convertExpr e :: convertExprList es
termination_by l => 3 * sizeOf l

/-- The `fmt.Printf`/`printf` special case (gts.go lines 148-160 and
199-211; the two occurrences are textually identical): `none` means the
guard failed and control falls through to the generic call rendering. -/
def printfSpecial : List Expr → Option String
  | [] => none
  | format :: rest =>
    let f := convertExpr format
    let args := convertExprList rest
    if args.length > 0 then
      some ("print " ++ f ++ " | " ++ goJoin ", " args)
    else
      some ("print " ++ f)
termination_by l => 3 * sizeOf l

/-- The `fmt.Println`/`println` special case (gts.go lines 161-165 and
212-216): only the first argument is printed. -/
def printlnSpecial : List Expr → Option String
  | [] => none
  | arg :: _ => some ("print " ++ convertExpr arg)
termination_by l => 3 * sizeOf l

/-- The `make` special case (gts.go lines 166-178). -/
def makeSpecial : List Expr → Option String
  | [] => none
  | t :: rest =>
    let typ := convertType t
    if goHasPrefixB typ "list[" then
      match rest with
      | size :: _ => some ("new " ++ typ ++ "(" ++ convertExpr size ++ ")")
      | [] => some ("new " ++ typ ++ "()")
    else if goHasPrefixB typ "map[" then
      some "[]"
    else
      none
termination_by l => 3 * sizeOf l

/-- The `len` special case (gts.go lines 179-183). -/
def lenSpecial : List Expr → Option String
  | [] => none
  | arg :: _ => some ("len(" ++ convertExpr arg ++ ")")
termination_by l => 3 * sizeOf l

/-- The `append` special case (gts.go lines 184-189): requires at least
two arguments; extra arguments are ignored. -/
def appendSpecial : List Expr → Option String
  | a :: b :: _ => some (convertExpr a ++ ".add(" ++ convertExpr b ++ ")")
  | _ => none
termination_by l => 3 * sizeOf l

/-- The special-function dispatch for a bare-identifier callee
(gts.go lines 143-190). -/
def specialIdent (name : String) (args : List Expr) : Option String :=
  match name with
  | "fmt.Printf" => printfSpecial args
  | "printf" => printfSpecial args
  | "fmt.Println" => printlnSpecial args
  | "println" => printlnSpecial args
  | "make" => makeSpecial args
  | "len" => lenSpecial args
  | "append" => appendSpecial args
  | _ => none
termination_by 3 * sizeOf args + 1

/-- The special-method dispatch for a selector callee whose rendered
owner is `fmt` (gts.go lines 196-218). -/
def specialFmt (method : String) (args : List Expr) : Option String :=
  match method with
  | "Printf" => printfSpecial args
  | "Println" => printlnSpecial args
  | _ => none
termination_by 3 * sizeOf args + 1

/-- Embeds `convertCallExpr` (gts.go lines 139-228), taking the call's
`Fun` and `Args` fields. -/
def convertCallExpr (fn : Expr) (args : List Expr) : String :=
  let funcName : String :=
    match fn with
    | .ident n => n
    | .selectorExpr x sel => convertExpr x ++ "." ++ sel
    | _ => ""  -- `var funcName string` stays empty for other callee shapes
  let special : Option String :=
    match fn with
    | .ident n => specialIdent n args
    | .selectorExpr x sel =>
      if convertExpr x == "fmt" then specialFmt sel args else none
    | _ => none
  match special with
  | some s => s
  | none => funcName ++ "(" ++ goJoin ", " (convertExprList args) ++ ")"
termination_by 3 * (sizeOf fn + sizeOf args) + 2

/-- Embeds `convertCompositeLit` (gts.go lines 230-242), taking the
literal's `Type` and `Elts` fields. -/
def convertCompositeLit (typ : Option Expr) (elts : List Expr) : String :=
  match typ with
  | some t =>
    let ts := convertType t
    if goHasPrefixB ts "list[" then
      "[" ++ goJoin ", " (convertExprList elts) ++ "]"
    else
      "# composite literal"
  | none => "# composite literal"
termination_by 3 * (sizeOf typ + sizeOf elts) + 2

end

/-! ## The translator state

`ScarConverter` (gts.go lines 12-20) carries the indentation counter and
the output builder.  The `fset`, `imports`, `inFunction`, `inStruct` and
`currentFunc` fields are never read by the conversion functions below
(`imports` is handled separately by `convertImports`), so the state record
models the two live fields.  `indentLevel` is a Go `int`, modelled as
`Int`. -/

structure ScarConverter where
  indentLevel : Int
  output : String

/-- Embeds the `indent` method (gts.go lines 29-31),
`strings.Repeat("    ", c.indentLevel)`.  `strings.Repeat` is only defined
for non-negative counts (it panics otherwise); the balance theorems below
show the level never moves, so `toNat` is only ever applied to the entry
level. -/
def ScarConverter.indent (c : ScarConverter) : String :=
  strRepeat "    " c.indentLevel.toNat

/-- Embeds the `writeln` method (gts.go lines 37-39). -/
def ScarConverter.writeln (c : ScarConverter) (s : String) : ScarConverter :=
  { c with output := c.output ++ (c.indent ++ s ++ "\n") }

/-! ## Statement nodes -/

/-- The assignment token (`stmt.Tok` in `convertAssignStmt`). -/
inductive AssignTok : Type where
  | assign     -- `token.ASSIGN`, `=`
  | define     -- `token.DEFINE`, `:=`
  | addAssign  -- `token.ADD_ASSIGN`, `+=`
  | subAssign  -- `token.SUB_ASSIGN`, `-=`
  | otherTok   -- any other assignment operator (the switch default)
deriving Repr, DecidableEq

/-- The branch token (`stmt.Tok` in `convertBranchStmt`): `goto` and
`fallthrough` hit no case and emit nothing. -/
inductive BranchTok : Type where
  | breakTok
  | continueTok
  | otherBranch
deriving Repr, DecidableEq

/-- An `*ast.ValueSpec` inside a `GenDecl` (names, optional type, values),
as read by `convertDeclStmt` and the top-level var/const loop. -/
structure ValueSpec where
  names : List String
  typ : Option Expr
  values : List Expr

/-- The statement shapes `convertStmt` (gts.go lines 244-279) dispatches
on.  A nil `ast.Stmt` is handled at call sites via `Option`.  Bodies that
are `*ast.BlockStmt` in Go appear as their statement lists. -/
inductive Stmt : Type where
  /-- Models `*ast.ExprStmt` -/
  | exprStmt (x : Expr)
  /-- Models `*ast.AssignStmt` -/
  | assignStmt (tok : AssignTok) (lhs rhs : List Expr)
  /-- Models `*ast.DeclStmt` holding a `*ast.GenDecl` whose specs are
  `*ast.ValueSpec`s (the only shape `convertDeclStmt` reads) -/
  | declStmt (specs : List ValueSpec)
  /-- Models `*ast.IfStmt` (`Init` and `Else` may be nil; `Body.List`) -/
  | ifStmt (init : Option Stmt) (cond : Expr) (body : List Stmt) (els : Option Stmt)
  /-- Models `*ast.ForStmt` -/
  | forStmt (init : Option Stmt) (cond : Option Expr) (post : Option Stmt) (body : List Stmt)
  /-- Models `*ast.RangeStmt` -/
  | rangeStmt (key value : Option Expr) (x : Expr) (body : List Stmt)
  /-- Models `*ast.ReturnStmt` -/
  | returnStmt (results : List Expr)
  /-- Models `*ast.BlockStmt` -/
  | blockStmt (list : List Stmt)
  /-- Models `*ast.IncDecStmt` (`isInc` is `Tok == token.INC`) -/
  | incDecStmt (isInc : Bool) (x : Expr)
  /-- Models `*ast.SwitchStmt` -/
  | switchStmt (init : Option Stmt) (tag : Option Expr) (body : List Stmt)
  /-- Models `*ast.TypeSwitchStmt` (always degrades to a placeholder) -/
  | typeSwitchStmt
  /-- Models `*ast.CaseClause` (`labels = none` models a nil `List`, i.e. `default:`) -/
  | caseClause (labels : Option (List Expr)) (body : List Stmt)
  /-- Models `*ast.BranchStmt` -/
  | branchStmt (tok : BranchTok)
  /-- any other statement kind (the `default` arm of `convertStmt`) -/
  | unknownStmt

/-! ## Statement emitters without statement recursion -/

/-- Embeds `convertAssignStmt` (gts.go lines 281-300): only the
one-target/one-source shape emits anything. -/
def convertAssignStmt (tok : AssignTok) (lhs rhs : List Expr) (c : ScarConverter) :
    ScarConverter :=
  match lhs, rhs with
  | [l], [r] =>
    let lhs := convertExpr l
    let rhs := convertExpr r
    match tok with
    | .assign => c.writeln (lhs ++ " = " ++ rhs)
    | .define => c.writeln (lhs ++ " = " ++ rhs)
    | .addAssign => c.writeln (lhs ++ " = " ++ lhs ++ " + " ++ rhs)
    | .subAssign => c.writeln (lhs ++ " = " ++ lhs ++ " - " ++ rhs)
    | .otherTok => c.writeln (lhs ++ " = " ++ rhs)
  | _, _ => c

/-- One binding of a `ValueSpec`: the body of the `for i, name` loop in
`convertDeclStmt` (gts.go lines 306-324), for name index `i`. -/
def convertValueSpecName (typ : String) (values : List Expr) (i : Nat) (name : String)
    (c : ScarConverter) : ScarConverter :=
  match values[i]? with
  | some v =>
    let val := convertExpr v
    if typ != "" then c.writeln (typ ++ " " ++ name ++ " = " ++ val)
    else c.writeln (name ++ " = " ++ val)
  | none =>
    if typ != "" then c.writeln (typ ++ " " ++ name) else c

/-- The `for i, name := range valueSpec.Names` loop of `convertDeclStmt`. -/
def convertValueSpecNames (typ : String) (values : List Expr) (i : Nat)
    (names : List String) (c : ScarConverter) : ScarConverter :=
  match names with
  | [] => c
  | name :: rest =>
    convertValueSpecNames typ values (i + 1) rest (convertValueSpecName typ values i name c)

/-- One `ValueSpec` of `convertDeclStmt`; the type string is empty when the
spec carries no type annotation (`convertType` on nil returns `""`). -/
def convertValueSpec (vs : ValueSpec) (c : ScarConverter) : ScarConverter :=
  let typ := match vs.typ with
    | some t => convertType t
    | none => ""
  convertValueSpecNames typ vs.values 0 vs.names c

/-- Embeds `convertDeclStmt` (gts.go lines 302-328). -/
def convertDeclStmt (specs : List ValueSpec) (c : ScarConverter) : ScarConverter :=
  match specs with
  | [] => c
  | vs :: rest => convertDeclStmt rest (convertValueSpec vs c)

/-- Embeds `convertReturnStmt` (gts.go lines 424-437). -/
def convertReturnStmt (results : List Expr) (c : ScarConverter) : ScarConverter :=
  match results with
  | [] => c.writeln "return"
  | [r] => c.writeln ("return " ++ convertExpr r)
  | rs => c.writeln ("return " ++ goJoin ", " (convertExprList rs))

/-- Embeds `convertIncDecStmt` (gts.go lines 445-452). -/
def convertIncDecStmt (isInc : Bool) (x : Expr) (c : ScarConverter) : ScarConverter :=
  let xs := convertExpr x
  if isInc then c.writeln (xs ++ " = " ++ xs ++ " + 1")
  else c.writeln (xs ++ " = " ++ xs ++ " - 1")

/-- Embeds `convertBranchStmt` (gts.go lines 489-496): tokens other than
`break`/`continue` hit no case and emit nothing. -/
def convertBranchStmt (tok : BranchTok) (c : ScarConverter) : ScarConverter :=
  match tok with
  | .breakTok => c.writeln "break"
  | .continueTok => c.writeln "continue"
  | .otherBranch => c


/-! ## The mutually recursive statement emitters -/

mutual

/-- Embeds `convertStmt` (gts.go lines 244-279): total dispatch over every
statement shape; the `default` arm emits one placeholder line. -/
def convertStmt (s : Stmt) (c : ScarConverter) : ScarConverter :=
  match s with
  | .exprStmt x => c.writeln (convertExpr x)
  | .assignStmt tok lhs rhs => convertAssignStmt tok lhs rhs c
  | .declStmt specs => convertDeclStmt specs c
  | .ifStmt init cond body els => convertIfStmt init cond body els c
  | .forStmt init cond post body => convertForStmt init cond post body c
  | .rangeStmt key value x body => convertRangeStmt key value x body c
  | .returnStmt results => convertReturnStmt results c
  | .blockStmt l => convertStmts l c
  | .incDecStmt isInc x => convertIncDecStmt isInc x c
  | .switchStmt init tag body => convertSwitchStmt init tag body c
  | .typeSwitchStmt => c.writeln "# type switch not supported */"
  | .caseClause labels body => convertCaseClause labels body c
  | .branchStmt tok => convertBranchStmt tok c
  | .unknownStmt => c.writeln "# unknown statement"
termination_by 3 * sizeOf s

/-- Embeds `convertBlockStmt` (gts.go lines 439-443): emit the statements
of a block list in order. -/
def convertStmts (l : List Stmt) (c : ScarConverter) : ScarConverter :=
  match l with
  | [] => c
  | s :: rest => convertStmts rest (convertStmt s c)
termination_by 3 * sizeOf l

/-- Embeds `convertStmtToString` (gts.go lines 498-511): run the emitter on
a fresh builder at depth 0, return the trimmed text, and restore the saved
builder and depth (in this pure embedding: return the entry state). -/
def convertStmtToString (s : Stmt) (c : ScarConverter) : String × ScarConverter :=
  (goTrimSpace (convertStmt s { indentLevel := 0, output := "" }).output, c)
termination_by 3 * sizeOf s + 1

/-- Embeds `convertIfStmt` (gts.go lines 330-352), taking the `IfStmt`
fields. -/
def convertIfStmt (init : Option Stmt) (cond : Expr) (body : List Stmt)
    (els : Option Stmt) (c : ScarConverter) : ScarConverter :=
  let c := match init with
    | some i => convertStmt i c
    | none => c
  let c := c.writeln ("if " ++ convertExpr cond ++ ":")
  let c := { c with indentLevel := c.indentLevel + 1 }
  let c := convertStmts body c
  let c := { c with indentLevel := c.indentLevel - 1 }
  convertElseTail els c
termination_by 3 * (sizeOf init + sizeOf body + sizeOf els) + 2

/-- The else-dispatch tail duplicated verbatim in the source at
gts.go lines 341-351 (inside `convertIfStmt`) and lines 365-375 (inside
`convertElseIfStmt`): an else-if chains into `convertElseIfStmt`, an else
block emits `else:` with its body one level deeper, anything else (nil or
another statement shape) emits nothing. -/
def convertElseTail (els : Option Stmt) (c : ScarConverter) : ScarConverter :=
  match els with
  | some (.ifStmt i2 cond2 body2 els2) => convertElseIfStmt (.ifStmt i2 cond2 body2 els2) c
  | some (.blockStmt l) =>
    let c := c.writeln "else:"
    let c := { c with indentLevel := c.indentLevel + 1 }
    let c := convertStmts l c
    { c with indentLevel := c.indentLevel - 1 }
  | _ => c
termination_by 3 * sizeOf els + 1

/-- Embeds `convertElseIfStmt` (gts.go lines 354-376); its Go argument is
an `*ast.IfStmt`, so only the `ifStmt` shape is ever passed. -/
def convertElseIfStmt (s : Stmt) (c : ScarConverter) : ScarConverter :=
  match s with
  | .ifStmt init cond body els =>
    let c := match init with
      | some i => convertStmt i c
      | none => c
    let c := c.writeln ("elif " ++ convertExpr cond ++ ":")
    let c := { c with indentLevel := c.indentLevel + 1 }
    let c := convertStmts body c
    let c := { c with indentLevel := c.indentLevel - 1 }
    convertElseTail els c
  | _ => c  -- unreachable: callers only pass if-statements
termination_by 3 * sizeOf s + 2

/-- Embeds `convertForStmt` (gts.go lines 378-405), taking the `ForStmt`
fields. -/
def convertForStmt (init : Option Stmt) (cond : Option Expr) (post : Option Stmt)
    (body : List Stmt) (c : ScarConverter) : ScarConverter :=
  let c1 :=
    match init, cond, post with
    | some i, some cd, some p => classicForHeader i cd p c
    -- While loop (the Go chain: not all three present but cond present);
    -- the row is expanded into the three constructor shapes it covers
    | none, some cd, none => c.writeln ("while " ++ convertExpr cd ++ ":")
    | none, some cd, some _ => c.writeln ("while " ++ convertExpr cd ++ ":")
    | some _, some cd, none => c.writeln ("while " ++ convertExpr cd ++ ":")
    -- Infinite loop (no condition), likewise expanded
    | none, none, none => c.writeln "while true:"
    | none, none, some _ => c.writeln "while true:"
    | some _, none, none => c.writeln "while true:"
    | some _, none, some _ => c.writeln "while true:"
  let c2 := { c1 with indentLevel := c1.indentLevel + 1 }
  let c3 := convertStmts body c2
  { c3 with indentLevel := c3.indentLevel - 1 }
termination_by 3 * (sizeOf init + sizeOf post + sizeOf body) + 2

/-- The header of the traditional three-part for loop
(gts.go lines 379-392): render the init statement to text, split it on
single spaces, and when at least three tokens result use the token three
positions from the end as the loop variable; otherwise degrade to a
`while` header. -/
def classicForHeader (i : Stmt) (cd : Expr) (p : Stmt) (c : ScarConverter) : ScarConverter :=
  let initStr := goTrimSpace (convertStmtToString i c).1
  let condStr := convertExpr cd
  let postStr := goTrimSpace (convertStmtToString p c).1
  -- Extract variable from init (simplified)
  let initParts := goSplitSpace initStr
  if initParts.length >= 3 then
    let varName := initParts.getD (initParts.length - 3) ""
    c.writeln ("for " ++ varName ++ "; " ++ condStr ++ "; " ++ postStr ++ ":")
  else
    c.writeln ("while " ++ condStr ++ ":")
termination_by 3 * (sizeOf i + sizeOf p) + 3

/-- Embeds `convertRangeStmt` (gts.go lines 407-422): with no key binding
no header is emitted, but the body is still emitted one level deeper. -/
def convertRangeStmt (key value : Option Expr) (x : Expr) (body : List Stmt)
    (c : ScarConverter) : ScarConverter :=
  let xs := convertExpr x
  let c :=
    match key, value with
    | some k, some v =>
      c.writeln ("for " ++ convertExpr k ++ ", " ++ convertExpr v ++ " in " ++ xs ++ ":")
    | some k, none =>
      c.writeln ("for " ++ convertExpr k ++ " in " ++ xs ++ ":")
    | none, _ => c
  let c := { c with indentLevel := c.indentLevel + 1 }
  let c := convertStmts body c
  { c with indentLevel := c.indentLevel - 1 }
termination_by 3 * sizeOf body + 2

/-- Embeds `convertSwitchStmt` (gts.go lines 454-469). -/
def convertSwitchStmt (init : Option Stmt) (tag : Option Expr) (body : List Stmt)
    (c : ScarConverter) : ScarConverter :=
  let c := match init with
    | some i => convertStmt i c
    | none => c
  let c := match tag with
    | some t => c.writeln ("switch " ++ convertExpr t ++ ":")
    | none => c.writeln "switch:"
  let c := { c with indentLevel := c.indentLevel + 1 }
  let c := convertStmts body c
  { c with indentLevel := c.indentLevel - 1 }
termination_by 3 * (sizeOf init + sizeOf body) + 2

/-- Embeds `convertCaseClause` (gts.go lines 471-487): a nil label list is
`default:`, and the clause body is emitted one level deeper. -/
def convertCaseClause (labels : Option (List Expr)) (body : List Stmt)
    (c : ScarConverter) : ScarConverter :=
  let c := match labels with
    | none => c.writeln "default:"
    | some ls => c.writeln ("case " ++ goJoin ", " (convertExprList ls) ++ ":")
  let c := { c with indentLevel := c.indentLevel + 1 }
  let c := convertStmts body c
  { c with indentLevel := c.indentLevel - 1 }
termination_by 3 * sizeOf body + 2

end


/-! ## Declarations -/

/-- An `*ast.Field` (names plus a type expression), as read from receiver,
parameter and result lists. -/
structure Field where
  names : List String
  typ : Expr

/-- An `*ast.FuncType` as read by the interface-method loop. -/
structure FuncType where
  params : Option (List Field)
  results : Option (List Field)

/-- An `*ast.FuncDecl`.  `recv`, `params` and `results` are `Option`s of
field lists because the Go code distinguishes a nil `*ast.FieldList` from
an empty one; `body` is the block's statement list, `none` when nil. -/
structure FuncDecl where
  name : String
  recv : Option (List Field)
  params : Option (List Field)
  results : Option (List Field)
  body : Option (List Stmt)

/-- The parameter-building loop shared by `convertFuncDecl`
(gts.go lines 541-549) and the interface-method loop (lines 607-615):
`<mappedType> <name>` per declared name, in field order. -/
def buildParams (fields : List Field) : List String :=
  match fields with
  | [] => []
  | f :: rest =>
    (f.names.map (fun n => convertType f.typ ++ " " ++ n)) ++ buildParams rest

/-- Embeds `convertFuncDecl` (gts.go lines 513-573). -/
def convertFuncDecl (decl : FuncDecl) (c : ScarConverter) : ScarConverter :=
  -- Special handling for main function - convert to top-level statements
  if decl.name == "main" && decl.recv.isNone then
    match decl.body with
    | some b => convertStmts b c
    | none => c
  else
    let receiver : String :=
      match decl.recv with
      | some (field :: _) =>
        -- the source first reads `field.Names[0].Name` into `receiver`
        -- and then unconditionally overwrites it with `this <type>`
        let recvType := convertType field.typ
        let recvType := goTrimPrefixStr recvType "ref "
        "this " ++ recvType
      | _ => ""
    let funcName := decl.name
    let params := match decl.params with
      | some fields => buildParams fields
      | none => []
    let returnType : String :=
      match decl.results with
      | some [r] => if r.names.length <= 1 then " -> " ++ convertType r.typ else ""
      | _ => ""
    -- Build function signature: the source's `if receiver != ""` has two
    -- textually identical branches, so `receiver` never reaches the output
    let c :=
      if receiver != "" then
        c.writeln ("fn " ++ funcName ++ "(" ++ goJoin ", " params ++ ")" ++ returnType ++ ":")
      else
        c.writeln ("fn " ++ funcName ++ "(" ++ goJoin ", " params ++ ")" ++ returnType ++ ":")
    let c :=
      match decl.body with
      | some b =>
        let c := { c with indentLevel := c.indentLevel + 1 }
        let c := convertStmts b c
        { c with indentLevel := c.indentLevel - 1 }
      | none => c
    c.writeln ""

/-- The inner name loop of the struct-constructor emission
(gts.go lines 585-590). -/
def writeStructFieldNames (fieldType : String) (names : List String)
    (c : ScarConverter) : ScarConverter :=
  match names with
  | [] => c
  | n :: rest => writeStructFieldNames fieldType rest (c.writeln (fieldType ++ " this." ++ n))

/-- The field loop of the struct-constructor emission. -/
def writeStructFields (fields : List Field) (c : ScarConverter) : ScarConverter :=
  match fields with
  | [] => c
  | f :: rest => writeStructFields rest (writeStructFieldNames (convertType f.typ) f.names c)

/-- One interface method line (gts.go lines 602-622): emitted only when the
method entry has a name and a function type. -/
def writeInterfaceMethod (names : List String) (funcType : Option FuncType)
    (c : ScarConverter) : ScarConverter :=
  match names with
  | [] => c
  | methodName :: _ =>
    match funcType with
    | some ft =>
      let params := match ft.params with
        | some fields => buildParams fields
        | none => []
      let returnType : String :=
        match ft.results with
        | some (r :: _) => " -> " ++ convertType r.typ
        | _ => ""
      c.writeln ("fn " ++ methodName ++ "(" ++ goJoin ", " params ++ ")" ++ returnType)
    | none => c

/-- An interface-method entry: names plus either a function type or some
other (embedded) type shape. -/
structure IfaceEntry where
  names : List String
  funcType : Option FuncType

/-- The method loop of the interface emission. -/
def writeInterfaceMethods (methods : List IfaceEntry) (c : ScarConverter) : ScarConverter :=
  match methods with
  | [] => c
  | m :: rest => writeInterfaceMethods rest (writeInterfaceMethod m.names m.funcType c)

/-- The type-spec shapes `convertTypeSpec` dispatches on: a struct with an
optional field list, an interface with an optional method list, or any
other type expression (which emits nothing). -/
inductive TypeSpecKind : Type where
  | structType (fields : Option (List Field))
  | interfaceType (methods : Option (List IfaceEntry))
  | otherType

/-- Embeds `convertTypeSpec` (gts.go lines 575-628). -/
def convertTypeSpec (name : String) (kind : TypeSpecKind) (c : ScarConverter) :
    ScarConverter :=
  match kind with
  | .structType fields =>
    let c := c.writeln ("class " ++ name ++ ":")
    let c := { c with indentLevel := c.indentLevel + 1 }
    -- Constructor
    let c :=
      match fields with
      | some (f :: rest) =>
        let c := c.writeln "init:"
        let c := { c with indentLevel := c.indentLevel + 1 }
        let c := writeStructFields (f :: rest) c
        { c with indentLevel := c.indentLevel - 1 }
      | _ => c.writeln "init:"
    let c := { c with indentLevel := c.indentLevel - 1 }
    c.writeln ""
  | .interfaceType methods =>
    let c := c.writeln ("interface " ++ name ++ ":")
    let c := { c with indentLevel := c.indentLevel + 1 }
    let c :=
      match methods with
      | some ms => writeInterfaceMethods ms c
      | none => c
    let c := { c with indentLevel := c.indentLevel - 1 }
    c.writeln ""
  | .otherType => c

/-! ## Import mapping -/

/-- Embeds `convertImportPath` (gts.go lines 644-674).  In Go a switch case
with an empty body does not fall through, so the `crypto/sha256`,
`crypto/sha512`, `crypto/sha1` and `io` cases leave the switch and reach
the trailing `return ""`. -/
def convertImportPath (path : String) : String :=
  match path with
  | "crypto/sha256" => ""  -- empty case body
  | "crypto/sha512" => ""  -- empty case body
  | "crypto/sha1" => ""    -- empty case body
  | "crypto/md5" => "std/crypto"
  | "io" => ""             -- empty case body
  | "bufio" => "std/io"
  | "json" => "std/json"
  | "regexp" => "std/regex"
  | "os" => "std/os"
  | "strings" => "std/strings"
  | "strconv" => "std/strings"
  | "math" => "std/math"
  | "time" => "std/time"
  | "math/rand" => "std/random"
  | _ => ""

/-- Embeds `convertImports` (gts.go lines 630-642) on the already
unquoted source paths: append each nonempty mapping to `imports`. -/
def convertImports (paths : List String) (imports : List String) : List String :=
  match paths with
  | [] => imports
  | p :: rest =>
    let scarImport := convertImportPath p
    if scarImport != "" then convertImports rest (imports ++ [scarImport])
    else convertImports rest imports


/-! ## Frame facts: emission only appends output and restores the depth -/

/-- State `c'` extends `c`: same indentation depth and the output only grew. -/
def Extends (c c' : ScarConverter) : Prop :=
  c'.indentLevel = c.indentLevel ∧ ∃ t, c'.output = c.output ++ t

theorem Extends.refl (c : ScarConverter) : Extends c c :=
  ⟨Eq.refl _, "", by simp⟩

theorem Extends.trans {a b c : ScarConverter} (h1 : Extends a b) (h2 : Extends b c) :
    Extends a c := by
  obtain ⟨hl1, t1, ho1⟩ := h1
  obtain ⟨hl2, t2, ho2⟩ := h2
  exact ⟨hl2.trans hl1, t1 ++ t2, by rw [ho2, ho1, String.append_assoc]⟩

theorem extends_writeln (c : ScarConverter) (s : String) : Extends c (c.writeln s) :=
  ⟨rfl, c.indent ++ s ++ "\n", rfl⟩

theorem Extends.step_writeln {c d : ScarConverter} (h : Extends c d) (s : String) :
    Extends c (d.writeln s) :=
  h.trans (extends_writeln d s)

/-- An indent-increment, an extending emission, and an indent-decrement
compose to an extending emission. -/
theorem Extends.step_indented {c d : ScarConverter} (h : Extends c d)
    (f : ScarConverter → ScarConverter)
    (hf : ∀ x, Extends x (f x)) :
    Extends c { f { d with indentLevel := d.indentLevel + 1 } with
      indentLevel := (f { d with indentLevel := d.indentLevel + 1 }).indentLevel - 1 } := by
  obtain ⟨hl, t, ho⟩ := h
  obtain ⟨hl2, t2, ho2⟩ := hf { d with indentLevel := d.indentLevel + 1 }
  refine ⟨?_, t ++ t2, ?_⟩
  · simp only [hl2]
    simp [hl]
  · simp only [ho2]
    simp [ho, String.append_assoc]


theorem extends_convertAssignStmt (tok : AssignTok) (lhs rhs : List Expr)
    (c : ScarConverter) : Extends c (convertAssignStmt tok lhs rhs c) := by
  unfold convertAssignStmt
  rcases lhs with _ | ⟨l, _ | ⟨l2, lrest⟩⟩ <;>
    rcases rhs with _ | ⟨r, _ | ⟨r2, rrest⟩⟩ <;>
    first
      | exact Extends.refl c
      | (cases tok <;> exact extends_writeln c _)

theorem extends_convertValueSpecName (typ : String) (values : List Expr) (i : Nat)
    (name : String) (c : ScarConverter) :
    Extends c (convertValueSpecName typ values i name c) := by
  unfold convertValueSpecName
  rcases values[i]? with _ | v <;> dsimp only <;> split <;>
    first
      | exact Extends.refl c
      | exact extends_writeln c _

theorem extends_convertValueSpecNames (typ : String) (values : List Expr)
    (names : List String) : ∀ (i : Nat) (c : ScarConverter),
    Extends c (convertValueSpecNames typ values i names c) := by
  induction names with
  | nil => intro i c; exact Extends.refl c
  | cons n rest ih =>
    intro i c
    rw [convertValueSpecNames]
    exact (extends_convertValueSpecName typ values i n c).trans (ih (i + 1) _)

theorem extends_convertValueSpec (vs : ValueSpec) (c : ScarConverter) :
    Extends c (convertValueSpec vs c) :=
  extends_convertValueSpecNames _ vs.values vs.names 0 c

theorem extends_convertDeclStmt (specs : List ValueSpec) :
    ∀ c, Extends c (convertDeclStmt specs c) := by
  induction specs with
  | nil => intro c; exact Extends.refl c
  | cons vs rest ih =>
    intro c
    rw [convertDeclStmt]
    exact (extends_convertValueSpec vs c).trans (ih _)

theorem extends_convertReturnStmt (results : List Expr) (c : ScarConverter) :
    Extends c (convertReturnStmt results c) := by
  unfold convertReturnStmt
  rcases results with _ | ⟨r, _ | rs⟩ <;> exact extends_writeln c _

theorem extends_convertIncDecStmt (isInc : Bool) (x : Expr) (c : ScarConverter) :
    Extends c (convertIncDecStmt isInc x c) := by
  unfold convertIncDecStmt
  cases isInc <;> simp only [Bool.false_eq_true, if_true, if_false] <;>
    exact extends_writeln c _

theorem extends_classicForHeader (i : Stmt) (cd : Expr) (p : Stmt) (c : ScarConverter) :
    Extends c (classicForHeader i cd p c) := by
  simp only [classicForHeader]
  split <;> exact extends_writeln c _

theorem extends_convertBranchStmt (tok : BranchTok) (c : ScarConverter) :
    Extends c (convertBranchStmt tok c) := by
  cases tok <;>
    first
      | exact Extends.refl c
      | exact extends_writeln c _


set_option maxHeartbeats 1600000 in
/-- Joint frame property of the mutually recursive statement emitters,
proved by strong induction on node size: every emission preserves the
indentation depth and only appends to the output. -/
theorem frame_aux : ∀ n : Nat,
    (∀ s : Stmt, sizeOf s ≤ n → ∀ c, Extends c (convertStmt s c)) ∧
    (∀ l : List Stmt, sizeOf l ≤ n → ∀ c, Extends c (convertStmts l c)) ∧
    (∀ e : Option Stmt, sizeOf e ≤ n → ∀ c, Extends c (convertElseTail e c)) ∧
    (∀ s : Stmt, sizeOf s ≤ n → ∀ c, Extends c (convertElseIfStmt s c)) := by
  intro n
  induction n using Nat.strong_induction_on with
  | _ n ih =>
  have IHs : ∀ s1 : Stmt, sizeOf s1 < n → ∀ c1, Extends c1 (convertStmt s1 c1) :=
    fun s1 h => (ih (sizeOf s1) h).1 s1 (Nat.le_refl _)
  have IHl : ∀ l1 : List Stmt, sizeOf l1 < n → ∀ c1, Extends c1 (convertStmts l1 c1) :=
    fun l1 h => (ih (sizeOf l1) h).2.1 l1 (Nat.le_refl _)
  have IHe : ∀ e1 : Option Stmt, sizeOf e1 < n → ∀ c1, Extends c1 (convertElseTail e1 c1) :=
    fun e1 h => (ih (sizeOf e1) h).2.2.1 e1 (Nat.le_refl _)
  have IHei : ∀ s1 : Stmt, sizeOf s1 < n → ∀ c1, Extends c1 (convertElseIfStmt s1 c1) :=
    fun s1 h => (ih (sizeOf s1) h).2.2.2 s1 (Nat.le_refl _)
  refine ⟨?_, ?_, ?_, ?_⟩
  · -- convertStmt
    intro s hs c
    cases s with
    | exprStmt x =>
      simp only [convertStmt]; exact extends_writeln c _
    | assignStmt tok lhs rhs =>
      simp only [convertStmt]; exact extends_convertAssignStmt tok lhs rhs c
    | declStmt specs =>
      simp only [convertStmt]; exact extends_convertDeclStmt specs c
    | ifStmt i cd b e =>
      rcases i with _ | i0 <;> simp at hs <;> simp only [convertStmt, convertIfStmt] <;>
        refine Extends.trans ?_ (IHe e (by omega) _) <;>
        refine Extends.step_indented ?_ (convertStmts b) (fun x => IHl b (by omega) x) <;>
        first
          | exact extends_writeln c _
          | exact (IHs i0 (by omega) c).step_writeln _
    | forStmt i cd p b =>
      rcases i with _ | i0 <;> rcases cd with _ | cd0 <;> rcases p with _ | p0 <;>
        simp at hs <;> simp only [convertStmt, convertForStmt] <;>
        refine Extends.step_indented ?_ (convertStmts b) (fun x => IHl b (by omega) x) <;>
        first
          | exact extends_writeln c _
          | exact extends_classicForHeader i0 cd0 p0 c
    | rangeStmt k v x b =>
      rcases k with _ | k0 <;> rcases v with _ | v0 <;>
        simp at hs <;> simp only [convertStmt, convertRangeStmt] <;>
        refine Extends.step_indented ?_ (convertStmts b) (fun y => IHl b (by omega) y) <;>
        first
          | exact extends_writeln c _
          | exact Extends.refl c
    | returnStmt results =>
      simp only [convertStmt]; exact extends_convertReturnStmt results c
    | blockStmt l =>
      simp at hs; simp only [convertStmt]
      exact IHl l (by omega) c
    | incDecStmt isInc x =>
      simp only [convertStmt]; exact extends_convertIncDecStmt isInc x c
    | switchStmt i t b =>
      rcases i with _ | i0 <;> rcases t with _ | t0 <;>
        simp at hs <;> simp only [convertStmt, convertSwitchStmt] <;>
        refine Extends.step_indented ?_ (convertStmts b) (fun x => IHl b (by omega) x) <;>
        first
          | exact extends_writeln c _
          | exact (IHs i0 (by omega) c).step_writeln _
    | typeSwitchStmt =>
      simp only [convertStmt]; exact extends_writeln c _
    | caseClause ls b =>
      rcases ls with _ | ls0 <;>
        simp at hs <;> simp only [convertStmt, convertCaseClause] <;>
        refine Extends.step_indented ?_ (convertStmts b) (fun x => IHl b (by omega) x) <;>
        exact extends_writeln c _
    | branchStmt tok =>
      simp only [convertStmt]; exact extends_convertBranchStmt tok c
    | unknownStmt =>
      simp only [convertStmt]; exact extends_writeln c _
  · -- convertStmts
    intro l hl c
    cases l with
    | nil => simp only [convertStmts]; exact Extends.refl c
    | cons s rest =>
      simp at hl; simp only [convertStmts]
      exact (IHs s (by omega) c).trans (IHl rest (by omega) _)
  · -- convertElseTail
    intro e he c
    rcases e with _ | s0
    · simp only [convertElseTail]; exact Extends.refl c
    · cases s0
      case ifStmt i2 cd2 b2 e2 =>
        simp at he; simp only [convertElseTail]
        exact IHei _ (by simp; omega) c
      case blockStmt l =>
        simp at he; simp only [convertElseTail]
        exact (extends_writeln c "else:").step_indented (convertStmts l)
          (fun x => IHl l (by omega) x)
      all_goals (simp only [convertElseTail]; exact Extends.refl c)
  · -- convertElseIfStmt
    intro s hse c
    cases s with
    | ifStmt i cd b e =>
      rcases i with _ | i0 <;> simp at hse <;> simp only [convertElseIfStmt] <;>
        refine Extends.trans ?_ (IHe e (by omega) _) <;>
        refine Extends.step_indented ?_ (convertStmts b) (fun x => IHl b (by omega) x) <;>
        first
          | exact extends_writeln c _
          | exact (IHs i0 (by omega) c).step_writeln _
    | _ => simp only [convertElseIfStmt]; exact Extends.refl c

/-- Corollary: `convertStmt` preserves the indentation depth and only appends. -/
theorem convertStmt_extends (s : Stmt) (c : ScarConverter) : Extends c (convertStmt s c) :=
  (frame_aux (sizeOf s)).1 s (Nat.le_refl _) c

/-- Corollary: `convertStmts` preserves the indentation depth and only appends. -/
theorem convertStmts_extends (l : List Stmt) (c : ScarConverter) :
    Extends c (convertStmts l c) :=
  (frame_aux (sizeOf l)).2.1 l (Nat.le_refl _) c

/-- Corollary: `convertElseIfStmt` preserves the indentation depth and only appends. -/
theorem convertElseIfStmt_extends (s : Stmt) (c : ScarConverter) :
    Extends c (convertElseIfStmt s c) :=
  (frame_aux (sizeOf s)).2.2.2 s (Nat.le_refl _) c


@[simp] theorem writeln_indentLevel (c : ScarConverter) (s : String) :
    (c.writeln s).indentLevel = c.indentLevel := rfl

@[simp] theorem convertStmt_indentLevel (s : Stmt) (c : ScarConverter) :
    (convertStmt s c).indentLevel = c.indentLevel :=
  (convertStmt_extends s c).1

@[simp] theorem convertStmts_indentLevel (l : List Stmt) (c : ScarConverter) :
    (convertStmts l c).indentLevel = c.indentLevel :=
  (convertStmts_extends l c).1

@[simp] theorem writeStructFieldNames_indentLevel (ft : String) (names : List String) :
    ∀ c, (writeStructFieldNames ft names c).indentLevel = c.indentLevel := by
  induction names with
  | nil => intro c; rw [writeStructFieldNames]
  | cons n rest ih => intro c; rw [writeStructFieldNames]; rw [ih]; rfl

@[simp] theorem writeStructFields_indentLevel (fields : List Field) :
    ∀ c, (writeStructFields fields c).indentLevel = c.indentLevel := by
  induction fields with
  | nil => intro c; rw [writeStructFields]
  | cons f rest ih =>
    intro c; rw [writeStructFields]; rw [ih]
    exact writeStructFieldNames_indentLevel _ _ c

@[simp] theorem writeInterfaceMethod_indentLevel (names : List String)
    (funcType : Option FuncType) (c : ScarConverter) :
    (writeInterfaceMethod names funcType c).indentLevel = c.indentLevel := by
  rcases names with _ | ⟨m, rest⟩ <;> rcases funcType with _ | ft <;>
    simp [writeInterfaceMethod]

@[simp] theorem writeInterfaceMethods_indentLevel (methods : List IfaceEntry) :
    ∀ c, (writeInterfaceMethods methods c).indentLevel = c.indentLevel := by
  induction methods with
  | nil => intro c; rw [writeInterfaceMethods]
  | cons m rest ih =>
    intro c; rw [writeInterfaceMethods]; rw [ih]
    exact writeInterfaceMethod_indentLevel _ _ c

theorem convertFuncDecl_indentLevel (d : FuncDecl) (c : ScarConverter) :
    (convertFuncDecl d c).indentLevel = c.indentLevel := by
  obtain ⟨name, recv, params, results, body⟩ := d
  simp only [convertFuncDecl]
  split
  · rcases body with _ | b <;> simp
  · rcases body with _ | b <;> split <;> simp

theorem convertTypeSpec_indentLevel (name : String) (kind : TypeSpecKind)
    (c : ScarConverter) : (convertTypeSpec name kind c).indentLevel = c.indentLevel := by
  cases kind with
  | structType fields =>
    rcases fields with _ | ⟨_ | ⟨f, rest⟩⟩ <;> simp [convertTypeSpec]
  | interfaceType methods =>
    rcases methods with _ | ms <;> simp [convertTypeSpec]
  | otherType => simp [convertTypeSpec]

theorem convertStmtToString_restores (s : Stmt) (c : ScarConverter) :
    (convertStmtToString s c).2 = c := by
  simp only [convertStmtToString]


/-! ## Claim theorems -/

/-- There is no newline inside a repeated four-space indent prefix. -/
theorem strRepeat_indent_no_newline (n : Nat) :
    ((strRepeat "    " n).toList.count '\n') = 0 := by
  induction n with
  | zero => rfl
  | succ m ih =>
    simp only [strRepeat]
    have h : ("    " ++ strRepeat "    " m).toList
        = "    ".toList ++ (strRepeat "    " m).toList := rfl
    rw [h, List.count_append, ih]
    decide

/-- C3: for every statement (and every declaration — function, type spec)
the indentation depth after emission equals the depth before, and the
render-to-string helper returns the entry state as the restored state. -/
theorem C3_indentation_depth_restored :
    (∀ (s : Stmt) (c : ScarConverter), (convertStmt s c).indentLevel = c.indentLevel) ∧
    (∀ (d : FuncDecl) (c : ScarConverter),
      (convertFuncDecl d c).indentLevel = c.indentLevel) ∧
    (∀ (name : String) (kind : TypeSpecKind) (c : ScarConverter),
      (convertTypeSpec name kind c).indentLevel = c.indentLevel) ∧
    (∀ (s : Stmt) (c : ScarConverter), (convertStmtToString s c).2 = c) :=
  ⟨convertStmt_indentLevel, convertFuncDecl_indentLevel, convertTypeSpec_indentLevel,
    convertStmtToString_restores⟩

/-- C6: statement emission is total and append-only; the `default`
placeholder and the type-switch placeholder each append exactly one line
(a newline-free text plus one final newline) and leave the depth
unchanged. -/
theorem C6_unsupported_statements_total :
    (∀ (s : Stmt) (c : ScarConverter), ∃ t, (convertStmt s c).output = c.output ++ t) ∧
    (∀ c : ScarConverter, convertStmt Stmt.unknownStmt c =
      { c with output := c.output ++ (c.indent ++ "# unknown statement" ++ "\n") }) ∧
    (∀ c : ScarConverter, (convertStmt Stmt.unknownStmt c).indentLevel = c.indentLevel) ∧
    (∀ c : ScarConverter, convertStmt Stmt.typeSwitchStmt c =
      { c with output := c.output ++ (c.indent ++ "# type switch not supported */" ++ "\n") }) ∧
    (∀ c : ScarConverter, ((c.indent ++ "# unknown statement").toList.count '\n') = 0) ∧
    (∀ c : ScarConverter,
      ((c.indent ++ "# type switch not supported */").toList.count '\n') = 0) := by
  refine ⟨fun s c => (convertStmt_extends s c).2, fun c => ?_, fun c => ?_, fun c => ?_,
    fun c => ?_, fun c => ?_⟩
  · simp only [convertStmt]; rfl
  · simp only [convertStmt]; rfl
  · simp only [convertStmt]; rfl
  · have h : (c.indent ++ "# unknown statement").toList
        = (c.indent).toList ++ ("# unknown statement").toList := rfl
    rw [h, List.count_append,
      show (c.indent).toList = (strRepeat "    " c.indentLevel.toNat).toList from rfl,
      strRepeat_indent_no_newline]
    decide
  · have h : (c.indent ++ "# type switch not supported */").toList
        = (c.indent).toList ++ ("# type switch not supported */").toList := rfl
    rw [h, List.count_append,
      show (c.indent).toList = (strRepeat "    " c.indentLevel.toNat).toList from rfl,
      strRepeat_indent_no_newline]
    decide

/-- C4: the import-path lookup maps `crypto/md5` to `std/crypto` and
`bufio` to `std/io`, but the empty-bodied cases `crypto/sha256`,
`crypto/sha512`, `crypto/sha1` and `io` yield the empty string, which
`convertImports` then silently drops. -/
theorem C4_import_path_empty_cases :
    convertImportPath "crypto/md5" = "std/crypto" ∧
    convertImportPath "bufio" = "std/io" ∧
    convertImportPath "crypto/sha256" = "" ∧
    convertImportPath "crypto/sha512" = "" ∧
    convertImportPath "crypto/sha1" = "" ∧
    convertImportPath "io" = "" ∧
    convertImports ["crypto/sha256", "crypto/sha512", "crypto/sha1", "io"] [] = [] ∧
    convertImports ["crypto/md5", "bufio"] [] = ["std/crypto", "std/io"] := by
  decide


/-- C7: a `fmt.Printf` selector call with at least one argument becomes
`print <format> | <args...>`, the suffix omitted when there are no
trailing arguments; in particular the spec scenario
`fmt.Printf("%d-%s", n, s)`. -/
theorem C7_printf_rewrite :
    (∀ (format : Expr) (rest : List Expr),
      convertExpr (.callExpr (.selectorExpr (.ident "fmt") "Printf") (format :: rest)) =
        if rest.length > 0 then
          "print " ++ convertExpr format ++ " | " ++ goJoin ", " (convertExprList rest)
        else
          "print " ++ convertExpr format) ∧
    convertExpr (.callExpr (.selectorExpr (.ident "fmt") "Printf")
        [.basicLit "\"%d-%s\"", .ident "n", .ident "s"]) = "print \"%d-%s\" | n, s" := by
  constructor
  · intro format rest
    cases rest with
    | nil =>
      simp [convertExpr, convertCallExpr, specialFmt, printfSpecial, convertExprList]
    | cons r rs =>
      simp [convertExpr, convertCallExpr, specialFmt, printfSpecial, convertExprList]
  · simp [convertExpr, convertCallExpr, specialFmt, printfSpecial, convertExprList, goJoin]

/-- C8: a function literally named `main` with no receiver is flattened:
its body statements are emitted at the current level with no header and
no indentation change; the spec scenario emits exactly `print "hi"`. -/
theorem C8_main_flattened :
    (∀ (params results : Option (List Field)) (body : List Stmt) (c : ScarConverter),
      convertFuncDecl ⟨"main", none, params, results, some body⟩ c = convertStmts body c) ∧
    (convertFuncDecl ⟨"main", none, none, none,
        some [.exprStmt (.callExpr (.selectorExpr (.ident "fmt") "Println")
          [.basicLit "\"hi\""])]⟩ { indentLevel := 0, output := "" }).output
      = "print \"hi\"\n" := by
  constructor
  · intro params results body c
    simp [convertFuncDecl]
  · simp [convertFuncDecl, convertStmts, convertStmt, convertExpr, convertCallExpr,
      specialFmt, printlnSpecial, ScarConverter.writeln, ScarConverter.indent, strRepeat]

/-- C9: the local-declaration forms — a (nonempty) rendered type
annotation yields `<type> <name> = <init>` or `<type> <name>`; with no
annotation, `<name> = <init>` only when an initializer exists; with
neither, nothing is emitted. -/
theorem C9_local_decl_forms :
    (∀ (n : String) (t : Expr) (v : Expr) (c : ScarConverter), convertType t ≠ "" →
      convertDeclStmt [⟨[n], some t, [v]⟩] c =
        c.writeln (convertType t ++ " " ++ n ++ " = " ++ convertExpr v)) ∧
    (∀ (n : String) (t : Expr) (c : ScarConverter), convertType t ≠ "" →
      convertDeclStmt [⟨[n], some t, []⟩] c = c.writeln (convertType t ++ " " ++ n)) ∧
    (∀ (n : String) (v : Expr) (c : ScarConverter),
      convertDeclStmt [⟨[n], none, [v]⟩] c = c.writeln (n ++ " = " ++ convertExpr v)) ∧
    (∀ (n : String) (c : ScarConverter), convertDeclStmt [⟨[n], none, []⟩] c = c) := by
  refine ⟨fun n t v c h => ?_, fun n t c h => ?_, fun n v c => ?_, fun n c => ?_⟩
  · simp [convertDeclStmt, convertValueSpec, convertValueSpecNames, convertValueSpecName, h]
  · simp [convertDeclStmt, convertValueSpec, convertValueSpecNames, convertValueSpecName, h]
  · simp [convertDeclStmt, convertValueSpec, convertValueSpecNames, convertValueSpecName]
  · simp [convertDeclStmt, convertValueSpec, convertValueSpecNames, convertValueSpecName]

/-- C9 witness: the annotated-with-initializer form at a concrete input. -/
theorem C9_local_decl_forms_witness :
    convertDeclStmt [⟨["x"], some (Expr.ident "int"), [Expr.basicLit "1"]⟩]
        { indentLevel := 0, output := "" } =
      ScarConverter.writeln { indentLevel := 0, output := "" } "int x = 1" := by
  have h := C9_local_decl_forms.1 "x" (Expr.ident "int") (Expr.basicLit "1")
    { indentLevel := 0, output := "" } (by simp [convertType])
  simpa [convertType, convertExpr] using h

/-- C10: an assignment whose sides are not both single emits nothing — the
state (output buffer and indentation depth) is returned unchanged. -/
theorem C10_multi_assign_frame :
    ∀ (tok : AssignTok) (lhs rhs : List Expr) (c : ScarConverter),
      ¬(lhs.length = 1 ∧ rhs.length = 1) →
      convertStmt (.assignStmt tok lhs rhs) c = c := by
  intro tok lhs rhs c h
  simp only [convertStmt]
  unfold convertAssignStmt
  rcases lhs with _ | ⟨l, _ | ⟨l2, ls⟩⟩ <;> rcases rhs with _ | ⟨r, _ | ⟨r2, rs⟩⟩ <;>
    first
      | rfl
      | exact absurd ⟨rfl, rfl⟩ h

/-- C10 witness: a two-target assignment leaves the state unchanged. -/
theorem C10_multi_assign_frame_witness :
    convertStmt (.assignStmt .assign [.ident "a", .ident "b"] [.ident "f"])
        { indentLevel := 0, output := "" } =
      { indentLevel := 0, output := "" } :=
  C10_multi_assign_frame .assign [.ident "a", .ident "b"] [.ident "f"]
    { indentLevel := 0, output := "" } (by decide)


/-- C2: with init, cond and post all present, the loop emits
`for <var>; <cond>; <post>:` where `<var>` is the token three positions
from the end of the space-split rendered initializer when at least three
tokens result, and `while <cond>:` otherwise; plus the spec scenario
`for i := 0; i < 10; i++ { sum += i }`. -/
theorem C2_classic_for_heuristic :
    (∀ (i : Stmt) (cd : Expr) (p : Stmt) (body : List Stmt) (c : ScarConverter),
      convertForStmt (some i) (some cd) (some p) body c =
        (let parts := goSplitSpace (goTrimSpace (convertStmtToString i c).1)
         let header :=
           if parts.length >= 3 then
             "for " ++ parts.getD (parts.length - 3) "" ++ "; " ++ convertExpr cd ++ "; " ++
               goTrimSpace (convertStmtToString p c).1 ++ ":"
           else
             "while " ++ convertExpr cd ++ ":"
         let c1 := ScarConverter.writeln c header
         let c2 := convertStmts body { c1 with indentLevel := c1.indentLevel + 1 }
         { c2 with indentLevel := c2.indentLevel - 1 })) ∧
    (convertStmt
        (Stmt.forStmt
          (some (.assignStmt .define [.ident "i"] [.basicLit "0"]))
          (some (.binaryExpr "<" (.ident "i") (.basicLit "10")))
          (some (.incDecStmt true (.ident "i")))
          [.assignStmt .addAssign [.ident "sum"] [.ident "i"]])
        { indentLevel := 0, output := "" }).output
      = "for i; i < 10; i = i + 1:\n    sum = sum + i\n" := by
  constructor
  · intro i cd p body c
    simp only [convertForStmt, classicForHeader]
    by_cases hc :
        (goSplitSpace (goTrimSpace (convertStmtToString i c).1)).length >= 3 <;>
      simp [hc]
  · simp [convertStmt, convertForStmt, classicForHeader, convertStmtToString,
      convertStmts, convertExpr, convertAssignStmt, convertIncDecStmt,
      ScarConverter.writeln, ScarConverter.indent, strRepeat]
    decide

/-- C1 (evaluation at the failing input): for the method
`func (p *Point) Get() {}` the emitted header is `fn Get():` — although
the receiver string `this Point` is computed (with the `ref ` marker
stripped), it never reaches the parameter list of the header. -/
theorem C1_receiver_absent_from_header :
    (convertFuncDecl ⟨"Get", some [⟨["p"], .starExpr (.ident "Point")⟩], none, none,
        some []⟩ { indentLevel := 0, output := "" }).output = "fn Get():\n\n" ∧
    goTrimPrefixStr (convertType (.starExpr (.ident "Point"))) "ref " = "Point" ∧
    ¬ List.IsInfix ("this Point".toList) ("fn Get():\n\n".toList) := by
  refine ⟨?_, ?_, ?_⟩
  · simp [convertFuncDecl, convertStmts, convertType, goTrimPrefixStr, goHasPrefixB,
      buildParams, goJoin, ScarConverter.writeln, ScarConverter.indent, strRepeat]
  · simp [convertType, goTrimPrefixStr, goHasPrefixB]
    decide
  · decide

/-- C5 counterexample: the special-cased `main` returns before the
trailing `writeln("")`, so its emission is exactly its body's lines: the
output does not end in an empty line (no two trailing newlines, which a
depth-0 blank line would produce). -/
theorem C5_counterexample_main_no_blank_line :
    (convertFuncDecl ⟨"main", none, none, none,
        some [.exprStmt (.callExpr (.selectorExpr (.ident "fmt") "Println")
          [.basicLit "\"bye\""])]⟩ { indentLevel := 0, output := "" }).output
      = "print \"bye\"\n" ∧
    ("print \"bye\"\n".toList.reverse.take 2) ≠ ['\n', '\n'] := by
  constructor
  · simp [convertFuncDecl, convertStmts, convertStmt, convertExpr, convertCallExpr,
      specialFmt, printlnSpecial, ScarConverter.writeln, ScarConverter.indent, strRepeat]
  · decide

/-- C5 (amended): after emitting any function or method declaration other
than the special-cased top-level `main`, a blank line is appended — the
final state is `writeln ""` of an intermediate state that extends the
entry state at the same depth (so the blank line is the entry indent plus
a newline). -/
theorem C5_blank_line_after_nonmain :
    ∀ (d : FuncDecl) (c : ScarConverter),
      ¬(d.name = "main" ∧ d.recv = none) →
      ∃ d' : ScarConverter, Extends c d' ∧
        convertFuncDecl d c = ScarConverter.writeln d' "" := by
  intro d c h
  obtain ⟨name, recv, params, results, body⟩ := d
  have hcond : ¬((name == "main" && recv.isNone) = true) := by
    simp only [Bool.and_eq_true, beq_iff_eq, Option.isNone_iff_eq_none]
    exact fun hc => h ⟨hc.1, hc.2⟩
  rcases body with _ | b
  · simp only [convertFuncDecl, if_neg hcond]
    refine ⟨_, ?_, rfl⟩
    split <;> exact extends_writeln c _
  · simp only [convertFuncDecl, if_neg hcond]
    refine ⟨_, ?_, rfl⟩
    refine Extends.step_indented ?_ (convertStmts b) (fun x => convertStmts_extends b x)
    split <;> exact extends_writeln c _

/-- C5 witness: a concrete non-main function gets its trailing blank
line. -/
theorem C5_blank_line_after_nonmain_witness :
    ∃ d' : ScarConverter, Extends { indentLevel := 0, output := "" } d' ∧
      convertFuncDecl ⟨"foo", none, none, none, some []⟩ { indentLevel := 0, output := "" } =
        ScarConverter.writeln d' "" :=
  C5_blank_line_after_nonmain ⟨"foo", none, none, none, some []⟩
    { indentLevel := 0, output := "" }
    (by rintro ⟨h1, -⟩; exact absurd h1 (by decide))


end GTS
